import Mathlib

/-!
# Verification of the bottle_app beer-inventory program

Shallow embedding of `src/main.cpp` (classes `ContainerSize`, `Barcode`, `Beer`,
`Breakage`, `BottleApp`) and proofs about its inventory operations.

Modelling conventions:
* C++ `int` fields are modelled as `Int` (no operation here comes near 32-bit
  overflow for the inputs considered).
* `std::string` is `String`; `std::map<std::string,int>` is an association list
  `List (String × Int)` with `operator[] += v` semantics (`mapAdd`: create the
  key with value 0 when absent, then add).  Only key ordering differs from
  `std::map`, which matters solely for display order.
* `double` fields (`alcoholContent`) are modelled as `Rat`; the program only
  stores and copies them, never computes with them.  The one `double`
  computation, `size * 29.5735` truncated by `static_cast<int>`, is modelled
  exactly as multiplication by the rational 295735/10000 followed by
  truncation toward zero (`Int.tdiv`).
* Timestamps (`std::time`) are modelled by threading an opaque clock string
  `now` into the operations that call `updateDate`.
* `std::cout`/`std::cin` interaction is dropped; each operation returns a
  result constant describing the message it would print, paired with the new
  state (the `const` display/query members never mutate state).
-/

/-- Association-list lookup, mirroring `std::map::find` (`none` = `end()`). -/
def mapFind : List (String × Int) → String → Option Int
  | [], _ => none
  | (k', v) :: rest, k => if k' = k then some v else mapFind rest k

/-- Key-membership test, `counts.find(k) != counts.end()`. -/
def mapContains : List (String × Int) → String → Bool
  | [], _ => false
  | (k', _) :: rest, k => if k' = k then true else mapContains rest k

/-- The update `counts[k] += v` on a `std::map<std::string,int>`: `operator[]` inserts the
key with value 0 when absent, then `+= v` adds. -/
def mapAdd : List (String × Int) → String → Int → List (String × Int)
  | [], k, v => [(k, v)]
  | (k', v') :: rest, k, v =>
    if k' = k then (k', v' + v) :: rest else (k', v') :: mapAdd rest k v

/-- The value stored at `k` (0 when the key is absent, matching the value
`operator[]` would materialise). -/
def mapGetD : List (String × Int) → String → Int
  | [], _ => 0
  | (k', v) :: rest, k => if k' = k then v else mapGetD rest k

/-- C++ class `ContainerSize`: a volume with a unit flag
(`isMetric = true` means ml, `false` means fl oz). -/
structure ContainerSize where
  isMetric : Bool
  size : Int
deriving DecidableEq

/-- The conversion `static_cast<int>(size * 29.5735)` performed by
`getSizeWithUnits` and `setSize`: multiply by 295735/10000 and truncate
toward zero. -/
def ContainerSize.mlOfNonMetric (size : Int) : Int :=
  Int.tdiv (size * 295735) 10000

def ContainerSize.getIsMetric (c : ContainerSize) : Bool :=
  c.isMetric

def ContainerSize.getSize (c : ContainerSize) : Int :=
  c.size

/-- The numeric ml value displayed by `getSizeWithUnits`: the stored size if
metric, otherwise the truncating conversion. -/
def ContainerSize.displayedMl (c : ContainerSize) : Int :=
  if c.isMetric then c.size else ContainerSize.mlOfNonMetric c.size

/-- C++ `ContainerSize::getSizeWithUnits`. -/
def ContainerSize.getSizeWithUnits (c : ContainerSize) : String :=
  if c.isMetric then
    toString c.displayedMl ++ " ml"
  else
    toString c.displayedMl ++ " ml (Converted from " ++ toString c.size ++ " fl oz)"

/-- C++ `ContainerSize::setIsMetric`. -/
def ContainerSize.setIsMetric (c : ContainerSize) (metric : Bool) : ContainerSize :=
  { c with isMetric := metric }

/-- C++ `ContainerSize::setSize(newSize, convertToMetric)`: store `newSize`;
if `convertToMetric` and currently non-metric, replace it by the truncating
conversion and flip the unit flag. -/
def ContainerSize.setSize (c : ContainerSize) (newSize : Int) (convertToMetric : Bool) :
    ContainerSize :=
  let c1 : ContainerSize := { c with size := newSize }
  if convertToMetric && !c1.isMetric then
    { isMetric := true, size := ContainerSize.mlOfNonMetric c1.size }
  else
    c1

/-- C++ class `Barcode`. -/
structure Barcode where
  value : Int
deriving DecidableEq

def Barcode.getValue (b : Barcode) : Int :=
  b.value

def Barcode.setValue (_ : Barcode) (newValue : Int) : Barcode :=
  { value := newValue }

/-- C++ class `Beer`. -/
structure Beer where
  style : String
  name : String
  alcoholContent : Rat
  containerSize : ContainerSize
  quantity : Int
  barcode : Barcode
  updatedDate : String
  id : Int
deriving DecidableEq

/-- The C++ `Beer` constructor: sets `id` to -1 and `updatedDate` to the
current time (the clock value is passed in as `now`). -/
def Beer.make (style name : String) (alcoholContent : Rat) (containerSize : ContainerSize)
    (quantity : Int) (barcodeValue : Int) (now : String) : Beer :=
  { style := style, name := name, alcoholContent := alcoholContent,
    containerSize := containerSize, quantity := quantity,
    barcode := { value := barcodeValue }, updatedDate := now, id := -1 }

/-- C++ class `Breakage`. -/
structure Breakage where
  totalBreakage : Int
deriving DecidableEq

def Breakage.incrementTotalBreakage (b : Breakage) (amount : Int) : Breakage :=
  { totalBreakage := b.totalBreakage + amount }

/-- C++ class `BottleApp`: the inventory state. -/
structure BottleApp where
  isBreakageFlagged : Bool
  beers : List Beer
  beerCounts : List (String × Int)
  flaggedBeers : List (String × Int)
  breakage : Breakage
  nextBeerId : Int
deriving DecidableEq

/-- The C++ `BottleApp` constructor. -/
def BottleApp.init : BottleApp :=
  { isBreakageFlagged := false, beers := [], beerCounts := [], flaggedBeers := [],
    breakage := { totalBreakage := 0 }, nextBeerId := 1 }

/-- C++ `BottleApp::beerExists`: key membership in `beerCounts`. -/
def BottleApp.beerExists (s : BottleApp) (beerName : String) : Bool :=
  mapContains s.beerCounts beerName

/-- Outcome of `BottleApp::addBeer` (which message it prints). -/
inductive AddResult where
  | invalidQuantity
  | duplicateName
  | added
deriving DecidableEq

/-- C++ `BottleApp::addBeer`.  Note the order of operations in the source:
the quantity check comes first; the id is assigned (`beer.setId(nextBeerId++)`)
BEFORE the duplicate-name check, so a duplicate rejection still consumes an
id; on success the counts, the item list, and (when the breakage flag is set)
the flagged list and breakage counter are updated. -/
def BottleApp.addBeer (s : BottleApp) (beer : Beer) (now : String) : AddResult × BottleApp :=
  if beer.quantity ≤ 0 then
    (AddResult.invalidQuantity, s)
  else
    let beer1 : Beer := { beer with id := s.nextBeerId }
    let s1 : BottleApp := { s with nextBeerId := s.nextBeerId + 1 }
    if s1.beerExists beer1.name then
      (AddResult.duplicateName, s1)
    else
      let s2 : BottleApp :=
        { s1 with
          beerCounts := mapAdd (mapAdd s1.beerCounts beer1.name beer1.quantity)
            "Total" beer1.quantity,
          beers := s1.beers ++ [{ beer1 with updatedDate := now }] }
      if s2.isBreakageFlagged then
        (AddResult.added,
          { s2 with
            flaggedBeers := s2.flaggedBeers ++ [(beer1.name, beer1.quantity)],
            breakage := s2.breakage.incrementTotalBreakage beer1.quantity })
      else
        (AddResult.added, s2)

/-- C++ `BottleApp::flagBreakage`. -/
def BottleApp.flagBreakage (s : BottleApp) : BottleApp :=
  { s with isBreakageFlagged := true }

/-- Outcome of `BottleApp::removeBeer`. -/
inductive RemoveResult where
  | removed
  | notFound
deriving DecidableEq

/-- The removal loop of `BottleApp::removeBeer`: scan for the first beer with
the requested id; on a hit, decrement its name's count and the "Total" count
by its quantity and erase it. -/
def removeLoop (counts : List (String × Int)) (beers : List Beer) (idToRemove : Int) :
    Option (List (String × Int) × List Beer) :=
  match beers with
  | [] => none
  | b :: rest =>
    if b.id = idToRemove then
      some (mapAdd (mapAdd counts b.name (-b.quantity)) "Total" (-b.quantity), rest)
    else
      match removeLoop counts rest idToRemove with
      | none => none
      | some (c, bs) => some (c, b :: bs)

/-- C++ `BottleApp::removeBeer` with the interactively-read id passed as an
argument. -/
def BottleApp.removeBeer (s : BottleApp) (idToRemove : Int) : RemoveResult × BottleApp :=
  match removeLoop s.beerCounts s.beers idToRemove with
  | some (c, bs) => (RemoveResult.removed, { s with beerCounts := c, beers := bs })
  | none => (RemoveResult.notFound, s)

/-- Outcome of `BottleApp::editBeer`. -/
inductive EditResult where
  | updated
  | notFound
deriving DecidableEq

/-- The in-place field updates `BottleApp::editBeer` applies to the first beer
whose name matches: an empty string keeps a string field; the numeric fields
are overwritten unconditionally; the container size is copied, resized with
`setSize(newSize, current isMetric flag)` and then given the new unit flag. -/
def Beer.applyEdit (beer : Beer) (newName newStyle : String) (newAlcoholContent : Rat)
    (newSize : Int) (newIsMetric : Bool) (newQuantity : Int) : Beer :=
  let b1 : Beer := if newName = "" then beer else { beer with name := newName }
  let b2 : Beer := if newStyle = "" then b1 else { b1 with style := newStyle }
  let b3 : Beer := { b2 with alcoholContent := newAlcoholContent }
  let cs1 : ContainerSize := b3.containerSize.setSize newSize b3.containerSize.getIsMetric
  let cs2 : ContainerSize := cs1.setIsMetric newIsMetric
  let b4 : Beer := { b3 with containerSize := cs2 }
  { b4 with quantity := newQuantity }

/-- The edit loop of `BottleApp::editBeer`: update the first beer whose name
matches, in place; `none` when no live beer has the target name.  The loop
never touches `beerCounts`. -/
def editLoop (beers : List Beer) (beerName : String) (newName newStyle : String)
    (newAlcoholContent : Rat) (newSize : Int) (newIsMetric : Bool) (newQuantity : Int) :
    Option (List Beer) :=
  match beers with
  | [] => none
  | b :: rest =>
    if b.name = beerName then
      some (b.applyEdit newName newStyle newAlcoholContent newSize newIsMetric newQuantity :: rest)
    else
      match editLoop rest beerName newName newStyle newAlcoholContent newSize newIsMetric
          newQuantity with
      | none => none
      | some bs => some (b :: bs)

/-- C++ `BottleApp::editBeer` with the interactively-read field values passed
as arguments. -/
def BottleApp.editBeer (s : BottleApp) (beerName newName newStyle : String)
    (newAlcoholContent : Rat) (newSize : Int) (newIsMetric : Bool) (newQuantity : Int) :
    EditResult × BottleApp :=
  match editLoop s.beers beerName newName newStyle newAlcoholContent newSize newIsMetric
      newQuantity with
  | some bs => (EditResult.updated, { s with beers := bs })
  | none => (EditResult.notFound, s)

/-- C++ `BottleApp::getTotalBottleCount` (`beerCounts.at("Total")` throws when
the key is absent, hence `Option`). -/
def BottleApp.getTotalBottleCount (s : BottleApp) : Option Int :=
  mapFind s.beerCounts "Total"

/-- The data read by the `const` query `displayAddedBeers`. -/
def BottleApp.listItems (s : BottleApp) : List Beer :=
  s.beers

/-- The data read by the `const` query `displayFlaggedBeers`. -/
def BottleApp.listFlaggedBreakage (s : BottleApp) : List (String × Int) :=
  s.flaggedBeers

/-- The data read by the `const` query `displayTotalCounts`. -/
def BottleApp.countsByType (s : BottleApp) : List (String × Int) :=
  s.beerCounts

/-- One invocation of a mutating `BottleApp` operation (the `const` queries
`beerExists`, `getTotalBottleCount`, `displayAddedBeers`, `displayFlaggedBeers`
and `displayTotalCounts` cannot change the state and are omitted). -/
inductive Op where
  | add (beer : Beer) (now : String)
  | remove (idToRemove : Int)
  | flag
  | edit (beerName newName newStyle : String) (newAlcoholContent : Rat) (newSize : Int)
      (newIsMetric : Bool) (newQuantity : Int)

/-- The state reached after one operation. -/
def BottleApp.step (s : BottleApp) : Op → BottleApp
  | Op.add beer now => (s.addBeer beer now).2
  | Op.remove i => (s.removeBeer i).2
  | Op.flag => s.flagBreakage
  | Op.edit a b c d e f g => (s.editBeer a b c d e f g).2

/-- States reachable from the freshly constructed `BottleApp`. -/
inductive Reachable : BottleApp → Prop
  | init : Reachable BottleApp.init
  | step (s : BottleApp) (op : Op) : Reachable s → Reachable (s.step op)

/-- Relation `ReachableFrom s t`: `t` arises from `s` by some (possibly empty) sequence
of operations. -/
inductive ReachableFrom : BottleApp → BottleApp → Prop
  | refl (s : BottleApp) : ReachableFrom s s
  | step (s t : BottleApp) (op : Op) : ReachableFrom s t → ReachableFrom s (t.step op)

/-- Sum of `quantity` over the live beers carrying a given name (spec-side
notion used to state the count-map consistency invariant). -/
def sumQtyByName (beers : List Beer) (name : String) : Int :=
  ((beers.filter fun b => b.name = name).map Beer.quantity).sum

/-- Sum of `quantity` over all live beers. -/
def totalQty (beers : List Beer) : Int :=
  (beers.map Beer.quantity).sum

/-- The consistency invariant claimed for the count map: every per-name entry
equals the summed quantity of live beers with that name, and the "Total"
entry equals the summed quantity of all live beers. -/
def countsConsistent (s : BottleApp) : Prop :=
  (∀ name, name ≠ "Total" → mapContains s.beerCounts name = true →
    mapGetD s.beerCounts name = sumQtyByName s.beers name) ∧
  (mapContains s.beerCounts "Total" = true →
    mapGetD s.beerCounts "Total" = totalQty s.beers)

/-! ## Helper lemmas about the association-list count map -/

theorem mapContains_mapAdd_self (m : List (String × Int)) (k : String) (v : Int) :
    mapContains (mapAdd m k v) k = true := by
  induction m with
  | nil => simp [mapAdd, mapContains]
  | cons p rest ih =>
    obtain ⟨k', v'⟩ := p
    by_cases h : k' = k <;> simp [mapAdd, mapContains, h, ih]

theorem mapContains_mapAdd_of_mem (m : List (String × Int)) (k k2 : String) (v : Int)
    (h : mapContains m k2 = true) : mapContains (mapAdd m k v) k2 = true := by
  induction m with
  | nil => simp [mapContains] at h
  | cons p rest ih =>
    obtain ⟨k', v'⟩ := p
    by_cases hk : k' = k
    · by_cases hk2 : k' = k2 <;> simp_all [mapAdd, mapContains]
    · by_cases hk2 : k' = k2 <;> simp_all [mapAdd, mapContains]

theorem mapGetD_mapAdd_self (m : List (String × Int)) (k : String) (v : Int) :
    mapGetD (mapAdd m k v) k = mapGetD m k + v := by
  induction m with
  | nil => simp [mapAdd, mapGetD]
  | cons p rest ih =>
    obtain ⟨k', v'⟩ := p
    by_cases h : k' = k <;> simp [mapAdd, mapGetD, h, ih]

theorem mapGetD_mapAdd_ne (m : List (String × Int)) (k k2 : String) (v : Int)
    (h : k2 ≠ k) : mapGetD (mapAdd m k v) k2 = mapGetD m k2 := by
  have hne : ¬ k = k2 := fun h2 => h h2.symm
  induction m with
  | nil => simp [mapAdd, mapGetD, hne]
  | cons p rest ih =>
    obtain ⟨k', v'⟩ := p
    by_cases hk : k' = k
    · subst hk
      simp [mapAdd, mapGetD, hne]
    · by_cases hk2 : k' = k2 <;> simp [mapAdd, mapGetD, hk, hk2, ih, h]

/-! ## Characterisation of `addBeer` -/

/-- The state produced by a successful `addBeer`. -/
def BottleApp.addedState (s : BottleApp) (beer : Beer) (now : String) : BottleApp :=
  { s with
    nextBeerId := s.nextBeerId + 1,
    beerCounts := mapAdd (mapAdd s.beerCounts beer.name beer.quantity) "Total" beer.quantity,
    beers := s.beers ++ [{ beer with id := s.nextBeerId, updatedDate := now }],
    flaggedBeers :=
      if s.isBreakageFlagged then s.flaggedBeers ++ [(beer.name, beer.quantity)]
      else s.flaggedBeers,
    breakage :=
      if s.isBreakageFlagged then s.breakage.incrementTotalBreakage beer.quantity
      else s.breakage }

theorem addBeer_of_nonpos (s : BottleApp) (beer : Beer) (now : String)
    (h : beer.quantity ≤ 0) :
    s.addBeer beer now = (AddResult.invalidQuantity, s) := by
  simp [BottleApp.addBeer, h]

theorem addBeer_of_dup (s : BottleApp) (beer : Beer) (now : String)
    (h1 : 0 < beer.quantity) (h2 : s.beerExists beer.name = true) :
    s.addBeer beer now = (AddResult.duplicateName, { s with nextBeerId := s.nextBeerId + 1 }) := by
  simp [BottleApp.addBeer, not_le.mpr h1, BottleApp.beerExists] at *
  simp [h2]

theorem addBeer_of_fresh (s : BottleApp) (beer : Beer) (now : String)
    (h1 : 0 < beer.quantity) (h2 : s.beerExists beer.name = false) :
    s.addBeer beer now = (AddResult.added, s.addedState beer now) := by
  simp [BottleApp.addBeer, not_le.mpr h1, BottleApp.beerExists] at *
  cases hf : s.isBreakageFlagged <;>
    simp [h2, hf, BottleApp.addedState, Breakage.incrementTotalBreakage]

theorem addBeer_fst_eq_added_iff (s : BottleApp) (beer : Beer) (now : String) :
    (s.addBeer beer now).1 = AddResult.added ↔
      0 < beer.quantity ∧ s.beerExists beer.name = false := by
  constructor
  · intro h
    by_cases h1 : beer.quantity ≤ 0
    · rw [addBeer_of_nonpos s beer now h1] at h
      exact absurd h (by simp)
    · have h1' : 0 < beer.quantity := not_le.mp h1
      by_cases h2 : s.beerExists beer.name = true
      · rw [addBeer_of_dup s beer now h1' h2] at h
        exact absurd h (by simp)
      · exact ⟨h1', by simpa using h2⟩
  · rintro ⟨h1, h2⟩
    rw [addBeer_of_fresh s beer now h1 h2]

/-! ## Characterisation of `removeBeer` and `editBeer` -/

theorem removeLoop_eq_none_iff (counts : List (String × Int)) (beers : List Beer) (i : Int) :
    removeLoop counts beers i = none ↔ ∀ b ∈ beers, b.id ≠ i := by
  induction beers with
  | nil => simp [removeLoop]
  | cons b rest ih =>
    by_cases hb : b.id = i
    · simp [removeLoop, hb]
    · cases hrec : removeLoop counts rest i with
      | none => simp [removeLoop, hb, hrec]; exact (ih.mp hrec)
      | some p => obtain ⟨c, bs⟩ := p; simp [removeLoop, hb, hrec, ih.symm]

theorem removeLoop_eq_some (counts : List (String × Int)) (beers : List Beer) (i : Int)
    (c : List (String × Int)) (bs : List Beer)
    (h : removeLoop counts beers i = some (c, bs)) :
    ∃ l1 b l2, beers = l1 ++ b :: l2 ∧ (∀ x ∈ l1, x.id ≠ i) ∧ b.id = i ∧ bs = l1 ++ l2 ∧
      c = mapAdd (mapAdd counts b.name (-b.quantity)) "Total" (-b.quantity) := by
  induction beers generalizing c bs with
  | nil => simp [removeLoop] at h
  | cons b rest ih =>
    by_cases hb : b.id = i
    · refine ⟨[], b, rest, by simp, by simp, hb, ?_, ?_⟩ <;>
        · simp [removeLoop, hb] at h
          simp [h.1.symm, h.2.symm]
    · cases hrec : removeLoop counts rest i with
      | none => simp [removeLoop, hb, hrec] at h
      | some p =>
        obtain ⟨c', bs'⟩ := p
        simp [removeLoop, hb, hrec] at h
        obtain ⟨l1, b', l2, hrest, hl1, hb', hbs', hc'⟩ := ih c' bs' hrec
        exact ⟨b :: l1, b', l2, by simp [hrest], by simpa [hb] using hl1, hb',
          by simp [h.2.symm, hbs'], h.1.symm.trans hc'⟩

theorem Beer.applyEdit_id (beer : Beer) (newName newStyle : String)
    (newAlcoholContent : Rat) (newSize : Int) (newIsMetric : Bool) (newQuantity : Int) :
    (beer.applyEdit newName newStyle newAlcoholContent newSize newIsMetric newQuantity).id
      = beer.id := by
  simp only [Beer.applyEdit]
  split_ifs <;> rfl

theorem editLoop_eq_none_iff (beers : List Beer) (beerName newName newStyle : String)
    (newAlcoholContent : Rat) (newSize : Int) (newIsMetric : Bool) (newQuantity : Int) :
    editLoop beers beerName newName newStyle newAlcoholContent newSize newIsMetric newQuantity
        = none
      ↔ ∀ b ∈ beers, b.name ≠ beerName := by
  induction beers with
  | nil => simp [editLoop]
  | cons b rest ih =>
    by_cases hb : b.name = beerName
    · simp [editLoop, hb]
    · cases hrec : editLoop rest beerName newName newStyle newAlcoholContent newSize
          newIsMetric newQuantity with
      | none => simp [editLoop, hb, hrec]; exact ih.mp hrec
      | some bs => simp [editLoop, hb, hrec, ih.symm]

theorem editLoop_eq_some_ids (beers : List Beer) (beerName newName newStyle : String)
    (newAlcoholContent : Rat) (newSize : Int) (newIsMetric : Bool) (newQuantity : Int)
    (bs : List Beer)
    (h : editLoop beers beerName newName newStyle newAlcoholContent newSize newIsMetric
        newQuantity = some bs) :
    bs.map Beer.id = beers.map Beer.id := by
  induction beers generalizing bs with
  | nil => simp [editLoop] at h
  | cons b rest ih =>
    by_cases hb : b.name = beerName
    · simp [editLoop, hb] at h
      simp [h.symm, Beer.applyEdit_id]
    · cases hrec : editLoop rest beerName newName newStyle newAlcoholContent newSize
          newIsMetric newQuantity with
      | none => simp [editLoop, hb, hrec] at h
      | some bs' =>
        simp [editLoop, hb, hrec] at h
        simp [h.symm, ih bs' hrec]

/-! ## Step-level facts -/

/-- Case analysis of one operation's effect on the id list and the id
counter: either a no-id-effect operation (remove, edit, flag, rejected add
with nonpositive quantity), or a duplicate-rejected add (ids unchanged, id
consumed), or a successful add (the current `nextBeerId` appended, counter
advanced). -/
theorem step_id_cases (s : BottleApp) (op : Op) :
    (((s.step op).beers.map Beer.id).Sublist (s.beers.map Beer.id) ∧
      (s.step op).nextBeerId = s.nextBeerId)
    ∨ ((s.step op).beers.map Beer.id = s.beers.map Beer.id ∧
      (s.step op).nextBeerId = s.nextBeerId + 1)
    ∨ ((s.step op).beers.map Beer.id = s.beers.map Beer.id ++ [s.nextBeerId] ∧
      (s.step op).nextBeerId = s.nextBeerId + 1) := by
  cases op with
  | add beer now =>
    by_cases h1 : beer.quantity ≤ 0
    · left
      simp [BottleApp.step, addBeer_of_nonpos s beer now h1]
    · cases h2 : s.beerExists beer.name with
      | true =>
        right; left
        simp [BottleApp.step, addBeer_of_dup s beer now (not_le.mp h1) h2]
      | false =>
        right; right
        simp [BottleApp.step, addBeer_of_fresh s beer now (not_le.mp h1) h2,
          BottleApp.addedState]
  | remove i =>
    left
    cases hrec : removeLoop s.beerCounts s.beers i with
    | none => simp [BottleApp.step, BottleApp.removeBeer, hrec]
    | some p =>
      obtain ⟨c, bs⟩ := p
      obtain ⟨l1, b, l2, hbeers, _, _, hbs, _⟩ := removeLoop_eq_some _ _ _ _ _ hrec
      constructor
      · simp only [BottleApp.step, BottleApp.removeBeer, hrec]
        rw [hbs, hbeers]
        exact List.Sublist.map Beer.id
          (List.Sublist.append_left ((List.Sublist.refl l2).cons b) l1)
      · simp [BottleApp.step, BottleApp.removeBeer, hrec]
  | flag =>
    left
    simp [BottleApp.step, BottleApp.flagBreakage]
  | edit a bn cn d e f g =>
    left
    cases hrec : editLoop s.beers a bn cn d e f g with
    | none => simp [BottleApp.step, BottleApp.editBeer, hrec]
    | some bs =>
      constructor
      · simp only [BottleApp.step, BottleApp.editBeer, hrec]
        rw [editLoop_eq_some_ids _ _ _ _ _ _ _ _ _ hrec]
      · simp [BottleApp.step, BottleApp.editBeer, hrec]

theorem step_nextId_mono (s : BottleApp) (op : Op) :
    s.nextBeerId ≤ (s.step op).nextBeerId := by
  rcases step_id_cases s op with ⟨_, h⟩ | ⟨_, h⟩ | ⟨_, h⟩ <;> omega

/-- The id bookkeeping invariant maintained by every operation. -/
def IdInv (s : BottleApp) : Prop :=
  (s.beers.map Beer.id).Pairwise (· < ·) ∧
  (∀ i ∈ s.beers.map Beer.id, 1 ≤ i ∧ i < s.nextBeerId) ∧
  1 ≤ s.nextBeerId

theorem idInv_init : IdInv BottleApp.init := by
  refine ⟨by simp [BottleApp.init], by simp [BottleApp.init], by simp [BottleApp.init]⟩

theorem idInv_step (s : BottleApp) (op : Op) (h : IdInv s) : IdInv (s.step op) := by
  obtain ⟨hpw, hmem, hpos⟩ := h
  rcases step_id_cases s op with ⟨hsub, hn⟩ | ⟨hids, hn⟩ | ⟨hids, hn⟩
  · refine ⟨hpw.sublist hsub, fun i hi => ?_, by omega⟩
    have := hmem i (hsub.subset hi)
    omega
  · refine ⟨by rw [hids]; exact hpw, fun i hi => ?_, by omega⟩
    rw [hids] at hi
    have := hmem i hi
    omega
  · refine ⟨?_, fun i hi => ?_, by omega⟩
    · rw [hids, List.pairwise_append]
      exact ⟨hpw, by simp, fun a ha b hb => by
        simp at hb
        subst hb
        exact (hmem a ha).2⟩
    · rw [hids] at hi
      rcases List.mem_append.mp hi with hold | hnew
      · have := hmem i hold
        omega
      · simp at hnew
        omega

theorem reachable_idInv (s : BottleApp) (h : Reachable s) : IdInv s := by
  induction h with
  | init => exact idInv_init
  | step t op _ ih => exact idInv_step t op ih

theorem reachableFrom_nextId_mono (s t : BottleApp) (h : ReachableFrom s t) :
    s.nextBeerId ≤ t.nextBeerId := by
  induction h with
  | refl => omega
  | step t' op _ ih => exact le_trans ih (step_nextId_mono t' op)

theorem reachableFrom_new_ids (s t : BottleApp) (h : ReachableFrom s t) :
    ∀ i ∈ t.beers.map Beer.id, i ∈ s.beers.map Beer.id ∨ s.nextBeerId ≤ i := by
  induction h with
  | refl => exact fun i hi => Or.inl hi
  | step t' op hfrom ih =>
    intro i hi
    have hmono : s.nextBeerId ≤ t'.nextBeerId := reachableFrom_nextId_mono s t' hfrom
    rcases step_id_cases t' op with ⟨hsub, _⟩ | ⟨hids, _⟩ | ⟨hids, _⟩
    · exact ih i (hsub.subset hi)
    · rw [hids] at hi
      exact ih i hi
    · rw [hids] at hi
      rcases List.mem_append.mp hi with hold | hnew
      · exact ih i hold
      · simp at hnew
        omega

/-- Effect of one operation on the count map: unchanged, or a `+= v` on some
name followed by a `+= v` on "Total" (with `v` the added quantity on an add,
the negated quantity on a removal). -/
theorem step_counts_cases (s : BottleApp) (op : Op) :
    (s.step op).beerCounts = s.beerCounts ∨
    ∃ n v, (s.step op).beerCounts = mapAdd (mapAdd s.beerCounts n v) "Total" v := by
  cases op with
  | add beer now =>
    by_cases h1 : beer.quantity ≤ 0
    · left
      simp [BottleApp.step, addBeer_of_nonpos s beer now h1]
    · cases h2 : s.beerExists beer.name with
      | true =>
        left
        simp [BottleApp.step, addBeer_of_dup s beer now (not_le.mp h1) h2]
      | false =>
        right
        exact ⟨beer.name, beer.quantity, by
          simp [BottleApp.step, addBeer_of_fresh s beer now (not_le.mp h1) h2,
            BottleApp.addedState]⟩
  | remove i =>
    cases hrec : removeLoop s.beerCounts s.beers i with
    | none => left; simp [BottleApp.step, BottleApp.removeBeer, hrec]
    | some p =>
      obtain ⟨c, bs⟩ := p
      obtain ⟨l1, b, l2, _, _, _, _, hc⟩ := removeLoop_eq_some _ _ _ _ _ hrec
      right
      exact ⟨b.name, -b.quantity, by simp [BottleApp.step, BottleApp.removeBeer, hrec, hc]⟩
  | flag =>
    left
    simp [BottleApp.step, BottleApp.flagBreakage]
  | edit a bn cn d e f g =>
    left
    cases hrec : editLoop s.beers a bn cn d e f g with
    | none => simp [BottleApp.step, BottleApp.editBeer, hrec]
    | some bs => simp [BottleApp.step, BottleApp.editBeer, hrec]

theorem step_beerExists_mono (s : BottleApp) (op : Op) (name : String)
    (h : s.beerExists name = true) : (s.step op).beerExists name = true := by
  rcases step_counts_cases s op with hc | ⟨n, v, hc⟩
  · simpa [BottleApp.beerExists, hc] using h
  · simp only [BottleApp.beerExists, hc]
    exact mapContains_mapAdd_of_mem _ _ _ _
      (mapContains_mapAdd_of_mem _ _ _ _ h)

theorem step_flag_mono (s : BottleApp) (op : Op)
    (h : s.isBreakageFlagged = true) : (s.step op).isBreakageFlagged = true := by
  cases op with
  | add beer now =>
    by_cases h1 : beer.quantity ≤ 0
    · simpa [BottleApp.step, addBeer_of_nonpos s beer now h1] using h
    · cases h2 : s.beerExists beer.name with
      | true => simpa [BottleApp.step, addBeer_of_dup s beer now (not_le.mp h1) h2] using h
      | false =>
        simpa [BottleApp.step, addBeer_of_fresh s beer now (not_le.mp h1) h2,
          BottleApp.addedState] using h
  | remove i =>
    cases hrec : removeLoop s.beerCounts s.beers i with
    | none => simpa [BottleApp.step, BottleApp.removeBeer, hrec] using h
    | some p =>
      obtain ⟨c, bs⟩ := p
      simpa [BottleApp.step, BottleApp.removeBeer, hrec] using h
  | flag => simp [BottleApp.step, BottleApp.flagBreakage]
  | edit a bn cn d e f g =>
    cases hrec : editLoop s.beers a bn cn d e f g with
    | none => simpa [BottleApp.step, BottleApp.editBeer, hrec] using h
    | some bs => simpa [BottleApp.step, BottleApp.editBeer, hrec] using h

/-! ## Concrete states used by counterexamples and witnesses -/

/-- A metric ale, quantity 2. -/
def beerA : Beer :=
  Beer.make "Ale" "A" 5 { isMetric := true, size := 330 } 2 111111111111 "c0"

/-- A non-metric stout, quantity 3. -/
def beerB : Beer :=
  Beer.make "Stout" "B" 6 { isMetric := false, size := 12 } 3 222222222222 "c0"

/-- The inventory after adding `beerA` to a fresh `BottleApp`. -/
def stateA : BottleApp :=
  (BottleApp.init.addBeer beerA "c1").2

/-- The inventory after adding `beerA` and then `beerB`. -/
def stateAB : BottleApp :=
  (stateA.addBeer beerB "c2").2

/-! ## Claims -/

/-- C1: the count-map consistency invariant is claimed to be preserved by
every operation, edit included.  The code's `editBeer` overwrites `quantity`
(and possibly `name`) without touching `beerCounts`, so the invariant breaks:
in the reachable state obtained by adding "A" with quantity 2 and then
editing "A" to quantity 5, the count entry for "A" still reads 2 while the
live quantity sums to 5. -/
theorem c1_edit_breaks_counts :
    Reachable (stateA.editBeer "A" "" "" 5 330 true 5).2
    ∧ mapGetD (stateA.editBeer "A" "" "" 5 330 true 5).2.beerCounts "A" = 2
    ∧ sumQtyByName (stateA.editBeer "A" "" "" 5 330 true 5).2.beers "A" = 5
    ∧ ¬ countsConsistent (stateA.editBeer "A" "" "" 5 330 true 5).2 := by
  refine ⟨?_, by decide, by decide, fun h => absurd (h.1 "A" (by decide) (by decide)) (by decide)⟩
  exact Reachable.step stateA (Op.edit "A" "" "" 5 330 true 5)
    (Reachable.step BottleApp.init (Op.add beerA "c1") Reachable.init)

/-- C2 counterexample: adding a duplicate name is rejected but does NOT leave
the entire state unchanged: `beer.setId(nextBeerId++)` runs before the
duplicate check, so the id counter advances from 2 to 3. -/
theorem c2_counterexample :
    (stateA.addBeer (Beer.make "Lager" "A" 4 { isMetric := true, size := 500 } 3
        222222222222 "c2") "c3").1 = AddResult.duplicateName
    ∧ stateA.nextBeerId = 2
    ∧ (stateA.addBeer (Beer.make "Lager" "A" 4 { isMetric := true, size := 500 } 3
        222222222222 "c2") "c3").2.nextBeerId = 3 := by
  refine ⟨by decide, by decide, by decide⟩

/-- C2 (amended): adding a candidate with positive quantity whose name is
already a key of the count map (the code's duplicate check consults
`beerCounts`, which records every successfully added name) is rejected with
`duplicateName`; the items, counts, flagged list and breakage counter are
unchanged, but the `nextBeerId` counter is incremented by one. -/
theorem c2_duplicate_add (s : BottleApp) (beer : Beer) (now : String)
    (h1 : 0 < beer.quantity) (h2 : s.beerExists beer.name = true) :
    (s.addBeer beer now).1 = AddResult.duplicateName
    ∧ (s.addBeer beer now).2.beers = s.beers
    ∧ (s.addBeer beer now).2.beerCounts = s.beerCounts
    ∧ (s.addBeer beer now).2.flaggedBeers = s.flaggedBeers
    ∧ (s.addBeer beer now).2.breakage = s.breakage
    ∧ (s.addBeer beer now).2.nextBeerId = s.nextBeerId + 1 := by
  rw [addBeer_of_dup s beer now h1 h2]
  exact ⟨rfl, rfl, rfl, rfl, rfl, rfl⟩

theorem c2_duplicate_add_witness :
    (stateA.addBeer (Beer.make "Lager" "A" 4 { isMetric := true, size := 500 } 3
        222222222222 "c2") "c3").1 = AddResult.duplicateName
    ∧ (stateA.addBeer (Beer.make "Lager" "A" 4 { isMetric := true, size := 500 } 3
        222222222222 "c2") "c3").2.nextBeerId = stateA.nextBeerId + 1 := by
  have h := c2_duplicate_add stateA
    (Beer.make "Lager" "A" 4 { isMetric := true, size := 500 } 3 222222222222 "c2") "c3"
    (by decide) (by decide)
  exact ⟨h.1, h.2.2.2.2.2⟩

/-- C3: adding a candidate with `quantity <= 0` is rejected with
`invalidQuantity` and the state is completely unchanged (the quantity check
runs before the id assignment, so even `nextBeerId` is untouched). -/
theorem c3_invalid_quantity_rejected (s : BottleApp) (beer : Beer) (now : String)
    (h : beer.quantity ≤ 0) :
    (s.addBeer beer now).1 = AddResult.invalidQuantity ∧ (s.addBeer beer now).2 = s := by
  rw [addBeer_of_nonpos s beer now h]
  exact ⟨rfl, rfl⟩

theorem c3_invalid_quantity_rejected_witness :
    (stateA.addBeer (Beer.make "Porter" "P" 7 { isMetric := true, size := 330 } 0
        333333333333 "c2") "c3").1 = AddResult.invalidQuantity
    ∧ (stateA.addBeer (Beer.make "Porter" "P" 7 { isMetric := true, size := 330 } 0
        333333333333 "c2") "c3").2 = stateA :=
  c3_invalid_quantity_rejected stateA
    (Beer.make "Porter" "P" 7 { isMetric := true, size := 330 } 0 333333333333 "c2") "c3"
    (by decide)

/-- C4: if some live item carries the requested id, `removeBeer` erases the
first such item from the list, applies `-= quantity` to its name's count
entry and to the "Total" entry, and reports success; if no live item carries
the id, it reports `notFound` and the state is unchanged. -/
theorem c4_remove_by_id (s : BottleApp) (i : Int) :
    ((∃ b ∈ s.beers, b.id = i) →
      ∃ l1 b l2, s.beers = l1 ++ b :: l2 ∧ (∀ x ∈ l1, x.id ≠ i) ∧ b.id = i
        ∧ s.removeBeer i = (RemoveResult.removed,
            { s with
              beers := l1 ++ l2,
              beerCounts := mapAdd (mapAdd s.beerCounts b.name (-b.quantity))
                "Total" (-b.quantity) })
        ∧ (b.name ≠ "Total" →
            mapGetD (s.removeBeer i).2.beerCounts b.name
              = mapGetD s.beerCounts b.name - b.quantity
            ∧ mapGetD (s.removeBeer i).2.beerCounts "Total"
              = mapGetD s.beerCounts "Total" - b.quantity))
    ∧ ((∀ b ∈ s.beers, b.id ≠ i) → s.removeBeer i = (RemoveResult.notFound, s)) := by
  constructor
  · intro hex
    cases hrec : removeLoop s.beerCounts s.beers i with
    | none =>
      obtain ⟨b, hb, hid⟩ := hex
      exact absurd hid ((removeLoop_eq_none_iff s.beerCounts s.beers i).mp hrec b hb)
    | some p =>
      obtain ⟨c, bs⟩ := p
      obtain ⟨l1, b, l2, hbeers, hl1, hid, hbs, hc⟩ := removeLoop_eq_some _ _ _ _ _ hrec
      have hres : s.removeBeer i = (RemoveResult.removed,
          { s with
            beers := l1 ++ l2,
            beerCounts := mapAdd (mapAdd s.beerCounts b.name (-b.quantity))
              "Total" (-b.quantity) }) := by
        simp [BottleApp.removeBeer, hrec, hbs, hc]
      refine ⟨l1, b, l2, hbeers, hl1, hid, hres, fun hname => ?_⟩
      rw [hres]
      constructor
      · rw [mapGetD_mapAdd_ne _ _ _ _ hname, mapGetD_mapAdd_self]
        omega
      · rw [mapGetD_mapAdd_self, mapGetD_mapAdd_ne _ _ _ _ (fun h => hname h.symm)]
        omega
  · intro hall
    have hrec : removeLoop s.beerCounts s.beers i = none :=
      (removeLoop_eq_none_iff s.beerCounts s.beers i).mpr hall
    simp [BottleApp.removeBeer, hrec]

theorem c4_remove_by_id_witness :
    (stateAB.removeBeer 99 = (RemoveResult.notFound, stateAB))
    ∧ (stateAB.removeBeer 1).1 = RemoveResult.removed
    ∧ mapGetD (stateAB.removeBeer 1).2.beerCounts "A"
        = mapGetD stateAB.beerCounts "A" - 2 := by
  refine ⟨(c4_remove_by_id stateAB 99).2 (by decide), ?_⟩
  obtain ⟨l1, b, l2, hbeers, hl1, hid, hres, hvals⟩ :=
    (c4_remove_by_id stateAB 1).1 (by decide)
  have hsAB : stateAB.beers = [{ beerA with id := 1, updatedDate := "c1" },
      { beerB with id := 2, updatedDate := "c2" }] := by decide
  have hmem : b ∈ stateAB.beers := by
    rw [hbeers]
    simp
  have hb : b = { beerA with id := 1, updatedDate := "c1" } := by
    rw [hsAB] at hmem
    simp at hmem
    rcases hmem with hb | hb
    · exact hb
    · subst hb
      exact absurd hid (by decide)
  constructor
  · rw [hres]
  · have hv := hvals (by rw [hb]; decide)
    rw [hb] at hv
    exact hv.1

/-- C5: while the breakage flag is set (it is set by `flagBreakage` and no
operation ever clears it), every successful add appends exactly one
`(name, quantity)` pair to the flagged list and adds the quantity to the
breakage counter; while the flag is unset, a successful add leaves both
untouched. -/
theorem c5_breakage_flag_effects :
    (∀ s : BottleApp, s.flagBreakage.isBreakageFlagged = true)
    ∧ (∀ (s : BottleApp) (op : Op), s.isBreakageFlagged = true →
        (s.step op).isBreakageFlagged = true)
    ∧ (∀ (s : BottleApp) (beer : Beer) (now : String),
        s.isBreakageFlagged = true → (s.addBeer beer now).1 = AddResult.added →
          (s.addBeer beer now).2.flaggedBeers = s.flaggedBeers ++ [(beer.name, beer.quantity)]
          ∧ (s.addBeer beer now).2.breakage.totalBreakage
              = s.breakage.totalBreakage + beer.quantity)
    ∧ (∀ (s : BottleApp) (beer : Beer) (now : String),
        s.isBreakageFlagged = false → (s.addBeer beer now).1 = AddResult.added →
          (s.addBeer beer now).2.flaggedBeers = s.flaggedBeers
          ∧ (s.addBeer beer now).2.breakage = s.breakage) := by
  refine ⟨fun s => rfl, step_flag_mono, ?_, ?_⟩
  · intro s beer now hflag hadd
    obtain ⟨h1, h2⟩ := (addBeer_fst_eq_added_iff s beer now).mp hadd
    rw [addBeer_of_fresh s beer now h1 h2]
    simp [BottleApp.addedState, hflag, Breakage.incrementTotalBreakage]
  · intro s beer now hflag hadd
    obtain ⟨h1, h2⟩ := (addBeer_fst_eq_added_iff s beer now).mp hadd
    rw [addBeer_of_fresh s beer now h1 h2]
    simp [BottleApp.addedState, hflag]

theorem c5_breakage_flag_effects_witness :
    ((BottleApp.init.flagBreakage.addBeer beerA "c1").2.flaggedBeers
        = BottleApp.init.flagBreakage.flaggedBeers ++ [(beerA.name, beerA.quantity)])
    ∧ (BottleApp.init.flagBreakage.addBeer beerA "c1").2.breakage.totalBreakage
        = BottleApp.init.flagBreakage.breakage.totalBreakage + beerA.quantity
    ∧ (BottleApp.init.addBeer beerA "c1").2.flaggedBeers = BottleApp.init.flaggedBeers := by
  have hflagged := c5_breakage_flag_effects.2.2.1 BottleApp.init.flagBreakage beerA "c1"
    (by decide) (by decide)
  have hplain := c5_breakage_flag_effects.2.2.2 BottleApp.init beerA "c1"
    (by decide) (by decide)
  exact ⟨hflagged.1, hflagged.2, hplain.1⟩

/-- C6: the reference behaviour contradicts the required Conflict validation:
in the reachable state holding live items named "A" (id 1) and "B" (id 2),
editing "A" and supplying "B" as the new name succeeds and produces two live
items named "B" instead of failing. -/
theorem c6_edit_rename_merges :
    Reachable stateAB
    ∧ (stateAB.editBeer "A" "B" "" 5 330 true 2).1 = EditResult.updated
    ∧ (stateAB.editBeer "A" "B" "" 5 330 true 2).2.beers.map Beer.name = ["B", "B"] := by
  refine ⟨?_, by decide, by decide⟩
  exact Reachable.step stateA (Op.add beerB "c2")
    (Reachable.step BottleApp.init (Op.add beerA "c1") Reachable.init)

/-- C7: `nextBeerId` starts at 1 and never decreases; every successful add
appends exactly one item whose id is the pre-add value of `nextBeerId` and
advances the counter by one; in every reachable state the live ids are
strictly increasing (hence pairwise distinct) and lie in `[1, nextBeerId)`;
any id present after further operations is either an id that was already
present or at least the earlier counter value; and a successful add performed
any number of operations later assigns an id strictly greater than every id
live before, so an id once assigned (even to a since-removed item) is never
assigned again. -/
theorem c7_id_assignment :
    BottleApp.init.nextBeerId = 1
    ∧ (∀ (s : BottleApp) (op : Op), s.nextBeerId ≤ (s.step op).nextBeerId)
    ∧ (∀ (s : BottleApp) (beer : Beer) (now : String),
        (s.addBeer beer now).1 = AddResult.added →
          (s.addBeer beer now).2.beers
              = s.beers ++ [{ beer with id := s.nextBeerId, updatedDate := now }]
          ∧ (s.addBeer beer now).2.nextBeerId = s.nextBeerId + 1)
    ∧ (∀ s : BottleApp, Reachable s →
        (s.beers.map Beer.id).Pairwise (· < ·)
        ∧ ∀ b ∈ s.beers, 1 ≤ b.id ∧ b.id < s.nextBeerId)
    ∧ (∀ s t : BottleApp, ReachableFrom s t →
        ∀ i ∈ t.beers.map Beer.id, i ∈ s.beers.map Beer.id ∨ s.nextBeerId ≤ i)
    ∧ (∀ s t : BottleApp, Reachable s → ReachableFrom s t →
        ∀ i ∈ s.beers.map Beer.id, ∀ (beer : Beer) (now : String),
          (t.addBeer beer now).1 = AddResult.added →
            (t.addBeer beer now).2.beers
                = t.beers ++ [{ beer with id := t.nextBeerId, updatedDate := now }]
            ∧ i < t.nextBeerId) := by
  refine ⟨rfl, step_nextId_mono, ?_, ?_, reachableFrom_new_ids, ?_⟩
  · intro s beer now hadd
    obtain ⟨h1, h2⟩ := (addBeer_fst_eq_added_iff s beer now).mp hadd
    rw [addBeer_of_fresh s beer now h1 h2]
    exact ⟨rfl, rfl⟩
  · intro s hs
    obtain ⟨hpw, hmem, _⟩ := reachable_idInv s hs
    exact ⟨hpw, fun b hb => hmem b.id (List.mem_map_of_mem Beer.id hb)⟩
  · intro s t hs hf i hi beer now hadd
    obtain ⟨h1, h2⟩ := (addBeer_fst_eq_added_iff t beer now).mp hadd
    rw [addBeer_of_fresh t beer now h1 h2]
    refine ⟨rfl, ?_⟩
    have hbound := (reachable_idInv s hs).2.1 i hi
    have hmono := reachableFrom_nextId_mono s t hf
    omega

theorem c7_id_assignment_witness :
    ((stateA.step (Op.remove 1)).addBeer beerB "c2").2.beers
        = (stateA.step (Op.remove 1)).beers
            ++ [{ beerB with
                  id := (stateA.step (Op.remove 1)).nextBeerId
                  updatedDate := "c2" }]
    ∧ (1 : Int) < (stateA.step (Op.remove 1)).nextBeerId := by
  have h := c7_id_assignment
  have hreachA : Reachable stateA :=
    Reachable.step BottleApp.init (Op.add beerA "c1") Reachable.init
  have hfrom : ReachableFrom stateA (stateA.step (Op.remove 1)) :=
    ReachableFrom.step stateA stateA (Op.remove 1) (ReachableFrom.refl stateA)
  exact h.2.2.2.2.2 stateA (stateA.step (Op.remove 1)) hreachA hfrom 1 (by decide)
    beerB "c2" (by decide)

/-- C8: a non-metric size displays as the size multiplied by the rational
29.5735 and truncated toward zero; 12 fl oz displays as 354 ml;
`setSize(n, true)` on a non-metric object stores that same truncated
conversion and flips the unit flag; a metric size is displayed unchanged. -/
theorem c8_container_size_conversion :
    (∀ c : ContainerSize, c.isMetric = false → 0 ≤ c.size →
      c.displayedMl = ⌊(c.size : ℚ) * 29.5735⌋)
    ∧ ContainerSize.displayedMl { isMetric := false, size := 12 } = 354
    ∧ (∀ (c : ContainerSize) (n : Int), c.isMetric = false →
        c.setSize n true = { isMetric := true, size := ContainerSize.mlOfNonMetric n }
        ∧ (c.setSize n true).size
            = ContainerSize.displayedMl { isMetric := false, size := n })
    ∧ (∀ c : ContainerSize, c.isMetric = true → c.displayedMl = c.size) := by
  refine ⟨?_, by decide, ?_, ?_⟩
  · intro c hm hs
    have h29 : (29.5735 : ℚ) = (295735 : ℚ) / (10000 : ℚ) := by norm_num
    have hsplit : (c.size : ℚ) * ((295735 : ℚ) / (10000 : ℚ))
        = ((c.size * 295735 : Int) : ℚ) / ((10000 : ℕ) : ℚ) := by
      push_cast
      ring
    rw [ContainerSize.displayedMl, hm, h29, hsplit, Rat.floor_intCast_div_natCast]
    have hnn : 0 ≤ c.size * 295735 := by positivity
    obtain ⟨m, hm2⟩ := Int.eq_ofNat_of_zero_le hnn
    show ContainerSize.mlOfNonMetric c.size = _
    rw [ContainerSize.mlOfNonMetric, hm2]
    rfl
  · intro c n hm
    constructor
    · simp [ContainerSize.setSize, hm]
    · simp [ContainerSize.setSize, ContainerSize.displayedMl, hm]
  · intro c hm
    simp [ContainerSize.displayedMl, hm]

theorem c8_container_size_conversion_witness :
    ContainerSize.displayedMl { isMetric := false, size := 12 }
        = ⌊((12 : Int) : ℚ) * 29.5735⌋
    ∧ ContainerSize.setSize { isMetric := false, size := 12 } 12 true
        = { isMetric := true, size := 354 } := by
  have h := c8_container_size_conversion
  refine ⟨h.1 { isMetric := false, size := 12 } rfl (by norm_num), ?_⟩
  have h3 := (h.2.2.1 { isMetric := false, size := 12 } 12 rfl).1
  rw [h3]
  decide

/-- C9: `beerExists` keys are never deleted: a name present in the count map
stays present across every operation (removal only decrements the value), a
successful add puts the added name into the count map, and persistence
extends along any sequence of operations. -/
theorem c9_exists_persists :
    (∀ (s : BottleApp) (beer : Beer) (now : String),
      (s.addBeer beer now).1 = AddResult.added →
      (s.addBeer beer now).2.beerExists beer.name = true)
    ∧ (∀ (s : BottleApp) (op : Op) (name : String),
        s.beerExists name = true → (s.step op).beerExists name = true)
    ∧ (∀ (s t : BottleApp) (name : String), ReachableFrom s t →
        s.beerExists name = true → t.beerExists name = true) := by
  refine ⟨?_, step_beerExists_mono, ?_⟩
  · intro s beer now hadd
    obtain ⟨h1, h2⟩ := (addBeer_fst_eq_added_iff s beer now).mp hadd
    rw [addBeer_of_fresh s beer now h1 h2]
    simp only [BottleApp.addedState, BottleApp.beerExists]
    exact mapContains_mapAdd_of_mem _ _ _ _ (mapContains_mapAdd_self _ _ _)
  · intro s t name hf hs
    induction hf with
    | refl => exact hs
    | step t' op _ ih => exact step_beerExists_mono t' op name ih

theorem c9_exists_persists_witness :
    (stateA.step (Op.remove 1)).beerExists "A" = true
    ∧ (stateA.step (Op.remove 1)).beers = [] :=
  ⟨c9_exists_persists.2.1 stateA (Op.remove 1) "A" (by decide), by decide⟩

/-- C10: every successful add creates the reserved "Total" key, after which
`beerExists "Total"` holds and a candidate named "Total" (positive quantity)
is rejected as a duplicate even when no live item carries that name; on the
fresh inventory, whose count map is empty, a candidate named "Total" is
accepted. -/
theorem c10_total_key_shadow :
    (∀ (s : BottleApp) (beer : Beer) (now : String),
      (s.addBeer beer now).1 = AddResult.added →
      (s.addBeer beer now).2.beerExists "Total" = true)
    ∧ (∀ (s : BottleApp) (cand : Beer) (now : String),
        s.beerExists "Total" = true → cand.name = "Total" → 0 < cand.quantity →
        (∀ b ∈ s.beers, b.name ≠ "Total") →
        (s.addBeer cand now).1 = AddResult.duplicateName)
    ∧ (∀ (cand : Beer) (now : String), cand.name = "Total" → 0 < cand.quantity →
        (BottleApp.init.addBeer cand now).1 = AddResult.added) := by
  refine ⟨?_, ?_, ?_⟩
  · intro s beer now hadd
    obtain ⟨h1, h2⟩ := (addBeer_fst_eq_added_iff s beer now).mp hadd
    rw [addBeer_of_fresh s beer now h1 h2]
    simp only [BottleApp.addedState, BottleApp.beerExists]
    exact mapContains_mapAdd_self _ _ _
  · intro s cand now htot hname hq _
    rw [addBeer_of_dup s cand now hq (by rw [hname]; exact htot)]
  · intro cand now hname hq
    rw [addBeer_of_fresh BottleApp.init cand now hq (by rw [hname]; rfl)]

theorem c10_total_key_shadow_witness :
    (stateA.addBeer (Beer.make "X" "Total" 5 { isMetric := true, size := 100 } 1
        444444444444 "c2") "c3").1 = AddResult.duplicateName
    ∧ (BottleApp.init.addBeer (Beer.make "X" "Total" 5 { isMetric := true, size := 100 } 1
        444444444444 "c2") "c3").1 = AddResult.added := by
  refine ⟨c10_total_key_shadow.2.1 stateA
      (Beer.make "X" "Total" 5 { isMetric := true, size := 100 } 1 444444444444 "c2") "c3"
      (by decide) (by decide) (by decide) (by decide),
    c10_total_key_shadow.2.2
      (Beer.make "X" "Total" 5 { isMetric := true, size := 100 } 1 444444444444 "c2") "c3"
      (by decide) (by decide)⟩
